import Mathlib

/-!
# Verification of the err-day core logic

Shallow embedding of the core logic of the err-day daily-journal widget
(`src/app/page.tsx`): the seeded PRNG (`hashSeed`, `mulberry32`), the daily
art generator (`generateDailyArt`), the persisted-entry loader
(`loadEntries`), the date-key arithmetic (`parseDateKey`, `formatDateKey`,
`shiftDateKey`), and the day-policy session state machine.

JavaScript numbers are modelled exactly where the program's arithmetic is
exact in float64: all bitwise operations work on 32-bit values (modelled as
`Nat` with explicit `% 4294967296`), and every fractional value produced by
the generator is a dyadic rational `v / 2^32` (modelled as `ℚ`), so
comparisons such as `random() > 0.62` and `Math.floor(random() * 9)` are
reproduced exactly (the float64 nearest to 0.62 and the rational 62/100 cut
the grid `v / 2^32` at the same point, which is proved where it is used).
-/

/-- `2^32`, the modulus of all JavaScript 32-bit integer arithmetic. -/
def UINT32 : Nat := 4294967296

/-- UTF-16 code units of one character, as produced by JavaScript
`String.prototype.charCodeAt`: code points below `0x10000` are a single
unit, the rest become a surrogate pair. -/
def utf16Units (c : Char) : List Nat :=
  if c.toNat < 65536 then [c.toNat]
  else [55296 + (c.toNat - 65536) / 1024, 56320 + (c.toNat - 65536) % 1024]

/-- The UTF-16 code-unit sequence of a string (`charCodeAt 0, 1, ...`). -/
def stringUtf16 (s : String) : List Nat :=
  s.data.flatMap utf16Units

/-- One step of the FNV-1a-style accumulation in `hashSeed`:
`hash = Math.imul(hash ^ code, 16777619)` on 32-bit values. -/
def fnvStep (h c : Nat) : Nat :=
  ((h ^^^ c) * 16777619) % UINT32

/-- `hashSeed` from `page.tsx`: fold the FNV-1a-style step over the UTF-16
code units, starting from 2166136261.  The final `>>> 0` of the source is
the identity here because the accumulator is kept reduced mod `2^32`. -/
def hashSeed (s : String) : Nat :=
  (stringUtf16 s).foldl fnvStep 2166136261

/-- The FNV-1a-style recurrence exactly as the spec words it: initial value
2166136261, and per code unit XOR the unit then multiply by 16777619
mod `2^32`.  Written as explicit recursion to compare with `hashSeed`. -/
def fnvSpecRec : Nat → List Nat → Nat
  | h, [] => h
  | h, c :: cs => fnvSpecRec (((h ^^^ c) * 16777619) % UINT32) cs

/-- One call of the closure returned by `mulberry32`: returns the new
captured `state` and the produced 32-bit output (the JS value is the output
divided by `2^32`).  Bit operations are on the 32-bit residue of the state,
exactly as JS `ToInt32`/`ToUint32` coerce them. -/
def mulberryStep (state : Nat) : Nat × Nat :=
  let s := (state + 1831565813) % UINT32
  let n1 := ((s ^^^ (s >>> 15)) * (s ||| 1)) % UINT32
  let t := ((n1 ^^^ (n1 >>> 7)) * (n1 ||| 61)) % UINT32
  let n2 := n1 ^^^ ((n1 + t) % UINT32)
  (s, n2 ^^^ (n2 >>> 14))

/-- The generator's captured state after `k` calls, starting from `seed`. -/
def streamState (seed : Nat) : Nat → Nat
  | 0 => seed
  | k + 1 => (mulberryStep (streamState seed k)).1

/-- The 32-bit output of call number `k` (0-indexed) of the generator
created from `seed`; the JS float value of the call is this over `2^32`. -/
def streamValue (seed : Nat) (k : Nat) : Nat :=
  (mulberryStep (streamState seed k)).2

/-- The produced value of draw `k` as the exact rational `out / 2^32`. -/
def streamRat (seed : Nat) (k : Nat) : ℚ :=
  (streamValue seed k : ℚ) / 4294967296

/-- The fixed 9-entry accent palette `DAILY_COLORS`. -/
def DAILY_COLORS : List String :=
  ["#ef4444", "#f97316", "#f59e0b", "#84cc16", "#10b981",
   "#06b6d4", "#3b82f6", "#6366f1", "#ec4899"]

/-- `ART_CELLS` from the source. -/
def ART_CELLS : Nat := 400

/-- One art cell: stable identifier and painted flag. -/
structure ArtCell where
  id : String
  isPainted : Bool
deriving DecidableEq, Repr

/-- The result of `generateDailyArt`.  The color is an `Option` because JS
array indexing out of bounds would yield `undefined`; that it never does is
proved separately. -/
structure DailyArt where
  cells : List ArtCell
  color : Option String
deriving DecidableEq, Repr

/-- The body of the `Array.from({length}, (_, index) => ...)` loop: build
`count` cells starting at `index`, threading the generator state; each cell
consumes one draw and is painted iff its value exceeds 0.62. -/
def genCellsFrom (dateKey : String) (state : Nat) (index : Nat) : Nat → List ArtCell
  | 0 => []
  | count + 1 =>
    let p := mulberryStep state
    { id := dateKey ++ "-" ++ toString index,
      isPainted := decide ((62 : ℚ) / 100 < (p.2 : ℚ) / 4294967296) } ::
      genCellsFrom dateKey p.1 (index + 1) count

/-- `generateDailyArt` from `page.tsx`: seed the generator from the date
key, draw the accent color index by `Math.floor(random() * 9)` (exact as
`9 * v / 2^32` in integers), then draw one value per cell. -/
def generateDailyArt (dateKey : String) : DailyArt :=
  let seed := hashSeed dateKey
  let p := mulberryStep seed
  { cells := genCellsFrom dateKey p.1 0 ART_CELLS,
    color := DAILY_COLORS.get? ((9 * p.2) / UINT32) }

/-- Painted flag of cell `i` of a day's art (out-of-range indices read a
dummy unpainted cell). -/
def cellPaintedAt (dateKey : String) (i : Nat) : Bool :=
  ((generateDailyArt dateKey).cells.getD i { id := "", isPainted := false }).isPainted

/-!
## Spec-side model of the blended art algorithm (section 4.2 of the spec)

The spec describes an elaborate generator: ten parameter draws, four
per-cell intensity signals, five blending modes and a jittered per-cell
threshold.  None of this appears in the source; the definitions below
follow the spec's words so that the spec's claim about `generateDailyArt`
can be compared with the code.  `cellNoise` is given one faithful
instantiation of the spec's loosely-described stateless hash.
-/

/-- Modelled from the spec: `cellNoise(seed, x, y, salt)`, a stateless hash
of the seed and three integer coordinates "via multiplicative mixing
constants (374761393, 668265263, 1597334677, 1274126177) and a final
XOR-shift avalanche, normalized to [0,1)".  The spec does not pin down the
exact combination; this is one faithful instantiation using those
constants, 32-bit arithmetic and an XOR-shift avalanche. -/
def cellNoiseWord (seed x y salt : Nat) : Nat :=
  let h0 := (seed + x * 374761393 + y * 668265263 + salt * 1597334677) % UINT32
  let h1 := ((h0 ^^^ (h0 >>> 13)) * 1274126177) % UINT32
  h1 ^^^ (h1 >>> 16)

/-- The noise value in `[0, 1)`: the mixed 32-bit word over `2^32`. -/
def cellNoise (seed x y salt : Nat) : ℚ :=
  (cellNoiseWord seed x y salt : ℚ) / 4294967296

/-- Spec draw 1 (after the color draw 0): the pattern mode,
`Math.floor(r * 5)` of the second stream value, one of 5 modes. -/
def specMode (d : String) : Nat :=
  (5 * streamValue (hashSeed d) 1) / UINT32

/-- Spec draw 2: the base density threshold in `[0.16, 0.84]`. -/
def specBaseDensity (d : String) : ℚ :=
  16 / 100 + streamRat (hashSeed d) 2 * (68 / 100)

/-- Spec draw 3: the cluster size integer in `[2, 6]`. -/
def specClusterSize (d : String) : Nat :=
  2 + (5 * streamValue (hashSeed d) 3) / UINT32

/-- Spec draws 4 and 5: the two wave frequencies in `[0.8, 4.6]`. -/
def specWaveFreq (d : String) (j : Nat) : ℚ :=
  8 / 10 + streamRat (hashSeed d) (4 + j) * (38 / 10)

/-- Spec draws 6 and 7: the two phase offsets in `[0, 2π)`. -/
noncomputable def specPhase (d : String) (j : Nat) : ℝ :=
  (streamRat (hashSeed d) (6 + j) : ℝ) * (2 * Real.pi)

/-- Spec draws 8 and 9: the center point in the unit square. -/
def specCenter (d : String) : ℚ × ℚ :=
  (streamRat (hashSeed d) 8, streamRat (hashSeed d) 9)

/-- Spec draw 10: the radius in `[0.35, 0.80]`. -/
def specRadius (d : String) : ℚ :=
  35 / 100 + streamRat (hashSeed d) 10 * (45 / 100)

/-- Grid x coordinate of cell `i` (`index mod 20`). -/
def cellX (i : Nat) : Nat := i % 20

/-- Grid y coordinate of cell `i` (`index div 20`). -/
def cellY (i : Nat) : Nat := i / 20

/-- Fine-noise signal of a cell: direct per-cell noise. -/
def specFine (d : String) (i : Nat) : ℚ :=
  cellNoise (hashSeed d) (cellX i) (cellY i) 1

/-- Cluster-noise signal: noise on coordinates downscaled by the cluster
size, producing blocky coherence. -/
def specCluster (d : String) (i : Nat) : ℚ :=
  cellNoise (hashSeed d) (cellX i / specClusterSize d) (cellY i / specClusterSize d) 2

/-- Diagonal signal: 1 minus the absolute difference of the normalized
coordinates (normalized by `gridSize - 1 = 19`). -/
def specDiagonal (i : Nat) : ℚ :=
  1 - |(cellX i : ℚ) / 19 - (cellY i : ℚ) / 19|

/-- Wave signal: average of two phase-shifted sine/cosine terms driven by
the two wave frequencies, remapped to `[0, 1]`. -/
noncomputable def specWave (d : String) (i : Nat) : ℝ :=
  ((Real.sin ((cellX i : ℝ) / 19 * (specWaveFreq d 0 : ℝ) * (2 * Real.pi) + specPhase d 0) +
      Real.cos ((cellY i : ℝ) / 19 * (specWaveFreq d 1 : ℝ) * (2 * Real.pi) + specPhase d 1)) / 2
    + 1) / 2

/-- Radial signal: 1 minus the normalized distance from the drawn center,
clipped to the drawn radius. -/
noncomputable def specRadial (d : String) (i : Nat) : ℝ :=
  max 0 (1 - min 1
    (Real.sqrt (((cellX i : ℝ) / 19 - ((specCenter d).1 : ℝ)) ^ 2 +
        ((cellY i : ℝ) / 19 - ((specCenter d).2 : ℝ)) ^ 2) / (specRadius d : ℝ)))

/-- The blended intensity of a cell, per the drawn pattern mode's fixed
weight table in the spec (weights sum to 1.0 per mode). -/
noncomputable def specBlend (d : String) (i : Nat) : ℝ :=
  if specMode d = 0 then
    52 / 100 * specWave d i + 30 / 100 * (specCluster d i : ℝ) + 18 / 100 * (specFine d i : ℝ)
  else if specMode d = 1 then
    52 / 100 * specRadial d i + 28 / 100 * specWave d i + 20 / 100 * (specFine d i : ℝ)
  else if specMode d = 2 then
    50 / 100 * (specDiagonal i : ℝ) + 30 / 100 * (specCluster d i : ℝ) +
      20 / 100 * (specFine d i : ℝ)
  else if specMode d = 3 then
    70 / 100 * (specCluster d i : ℝ) + 30 / 100 * (specFine d i : ℝ)
  else
    40 / 100 * specWave d i + 35 / 100 * specRadial d i + 25 / 100 * (specCluster d i : ℝ)

/-- The spec's jittered per-cell threshold:
`baseDensity * (0.86 + noise(x, y, salt = 3) * 0.28)`. -/
def specThreshold (d : String) (i : Nat) : ℚ :=
  specBaseDensity d * (86 / 100 + cellNoise (hashSeed d) (cellX i) (cellY i) 3 * (28 / 100))

/-- The spec's painted rule: a cell is painted iff the blended intensity
exceeds the jittered threshold. -/
noncomputable def specPainted (d : String) (i : Nat) : Prop :=
  specBlend d i > (specThreshold d i : ℝ)

/-!
## The persisted-entry loader `loadEntries`

A shallow model of the JavaScript dynamic values a `JSON.parse` call can
produce, with just enough JS semantics (truthiness, `typeof`,
`Object.entries`) to express the guards of `loadEntries`.  The input of
`loadEntries` is `none` when there was nothing stored, the raw string was
empty, or `JSON.parse` threw (the source's `catch` and `!raw` paths), and
`some v` when parsing produced the value `v`.
-/

/-- A parsed JSON value as a JavaScript runtime value. -/
inductive JsValue where
  | null : JsValue
  | bool : Bool → JsValue
  | num : ℚ → JsValue
  | str : String → JsValue
  | arr : List JsValue → JsValue
  | obj : List (String × JsValue) → JsValue
deriving Repr

/-- JavaScript truthiness of a parsed JSON value (`!parsed` is its
negation): `null`, `false`, `0` and `""` are falsy; every array and object
is truthy. -/
def jsTruthy : JsValue → Bool
  | .null => false
  | .bool b => b
  | .num q => !(q == 0)
  | .str s => !(s == "")
  | .arr _ => true
  | .obj _ => true

/-- Whether `typeof v === "object"`.  Crucially this holds for `null` and
for arrays as well as for plain objects. -/
def typeofIsObject : JsValue → Bool
  | .null => true
  | .bool _ => false
  | .num _ => false
  | .str _ => false
  | .arr _ => true
  | .obj _ => true

/-- `Object.entries` on a parsed JSON value: an object yields its key/value
pairs, an array yields its elements keyed by their decimal indices, and
primitives yield nothing. -/
def jsEntries : JsValue → List (String × JsValue)
  | .obj kvs => kvs
  | .arr xs => xs.enum.map fun p => (toString p.1, p.2)
  | _ => []

/-- `loadEntries` from `page.tsx`, given the outcome of
`JSON.parse(localStorage.getItem(...))`: `none` for missing/empty/
unparseable input (the `!raw` and `catch` paths), `some v` for a parsed
value.  Keeps only string-valued entries of anything that passes the
`!parsed || typeof parsed !== "object"` guard. -/
def loadEntries : Option JsValue → List (String × String)
  | none => []
  | some parsed =>
    if !(jsTruthy parsed) || !(typeofIsObject parsed) then []
    else (jsEntries parsed).filterMap fun kv =>
      match kv.2 with
      | .str s => some (kv.1, s)
      | _ => none

/-!
## Date keys: format, parse, shift

`formatDateKey` renders `${year}-${month}-${day}` with month and day padded
to two digits; `parseDateKey` splits on `-` and converts each part with
`Number`; `shiftDateKey` moves the parsed date by a number of calendar days
through the JS `Date` object (`setDate(getDate() + byDays)`).

JS `Date` calendar arithmetic is modelled by the proleptic Gregorian
bijection between dates and day numbers (days since the Unix epoch), the
standard era/day-of-era decomposition.  This is exact for the program's
domain: four-digit-year date keys (for years 0-99 the JS `Date(y, m, d)`
constructor maps the year to 1900+y, and negative years would render with a
sign; neither occurs for canonical `YYYY-MM-DD` keys, and the theorems
restrict attention to them).
-/

/-- Decimal digits of a natural number, most significant first, as
JavaScript `String(n)` renders it.  Structural recursion on a fuel bound
so that the kernel can evaluate it. -/
def natDigitsAux : Nat → Nat → List Char
  | 0, _ => []
  | fuel + 1, n =>
    if n < 10 then [Char.ofNat (48 + n)]
    else natDigitsAux fuel (n / 10) ++ [Char.ofNat (48 + n % 10)]

/-- Decimal rendering of a natural number (list of digit characters). -/
def natDigits (n : Nat) : List Char :=
  natDigitsAux (n + 1) n

/-- Decimal value of a digit string, as JS `Number` evaluates an all-digit
string. -/
def digitsToNat (cs : List Char) : Nat :=
  cs.foldl (fun a c => 10 * a + (c.toNat - 48)) 0

/-- `String.prototype.padStart(2, "0")`. -/
def pad2 (cs : List Char) : List Char :=
  if cs.length ≥ 2 then cs else if cs.length = 1 then '0' :: cs else ['0', '0']

/-- Split a character list at every `'-'`, as `split("-")` does. -/
def splitOnDash : List Char → List (List Char)
  | [] => [[]]
  | c :: rest =>
    match splitOnDash rest with
    | [] => [[]]
    | g :: gs => if c = '-' then [] :: g :: gs else (c :: g) :: gs

/-- `formatDateKey` from `page.tsx` on a year/month/day triple:
`${year}-${pad2 month}-${pad2 day}` (faithful for `0 ≤ year`; canonical
keys have four-digit years). -/
def formatDateKey (y : Int) (m d : Nat) : String :=
  String.mk (natDigits y.toNat ++ '-' :: (pad2 (natDigits m) ++ '-' :: pad2 (natDigits d)))

/-- `parseDateKey` from `page.tsx`: split on `-` and read the three decimal
fields.  Inputs that are not three dash-separated fields would produce an
invalid JS `Date` (NaN components); they are mapped to a junk triple and
are outside every claim's domain. -/
def parseDateKey (s : String) : Int × Nat × Nat :=
  match splitOnDash s.data with
  | [a, b, c] => ((digitsToNat a : Int), digitsToNat b, digitsToNat c)
  | _ => (0, 0, 0)

/-- Year-of-era, month and day from a day-of-era in `[0, 146096]` (one
400-year Gregorian era starting March 1), the civil-from-days
decomposition used to model JS `Date` component reads: century within era
(the first three have 36524 days, the last 36525), quadrennium within
century (the first 24 have 1461 days), year within quadrennium (the first
three have 365 days), then month and day from the March-based day of
year. -/
def civilOfDoe (doe : Nat) : Nat × Nat × Nat :=
  let c := min (doe / 36524) 3
  let r2 := doe - 36524 * c
  let q := min (r2 / 1461) 24
  let r3 := r2 - 1461 * q
  let y := min (r3 / 365) 3
  let doy := r3 - 365 * y
  let mp := (5 * doy + 2) / 153
  let d := doy - (153 * mp + 2) / 5 + 1
  let m := if mp < 10 then mp + 3 else mp - 9
  (100 * c + 4 * q + y, m, d)

/-- Day-of-era of a (year-of-era, month, day) triple: the inverse
composition of `civilOfDoe`. -/
def doeOfYoeMd (yoe m d : Nat) : Nat :=
  365 * yoe + yoe / 4 - yoe / 100 + ((153 * (if 2 < m then m - 3 else m + 9) + 2) / 5 + d - 1)

/-- Calendar date (year, month, day) of a day number (days since the Unix
epoch): era/day-of-era decomposition, then `civilOfDoe`. -/
def civilFromDays (n : Int) : Int × Nat × Nat :=
  let z := n + 719468
  let era := z / 146097
  let doe := (z - era * 146097).toNat
  let t := civilOfDoe doe
  (era * 400 + t.1 + (if t.2.1 ≤ 2 then 1 else 0), t.2.1, t.2.2)

/-- Day number of a calendar date: the inverse of `civilFromDays`. -/
def daysFromCivil (y : Int) (m d : Nat) : Int :=
  let y1 := if m ≤ 2 then y - 1 else y
  let era := y1 / 400
  let yoe := (y1 - era * 400).toNat
  era * 146097 + (doeOfYoeMd yoe m d : Int) - 719468

/-- `shiftDateKey` from `page.tsx`: parse, move by `byDays` calendar days
(the `setDate(getDate() + byDays)` call), and re-format. -/
def shiftDateKey (s : String) (byDays : Int) : String :=
  let p := parseDateKey s
  let t := civilFromDays (daysFromCivil p.1 p.2.1 p.2.2 + byDays)
  formatDateKey t.1 t.2.1 t.2.2

/-!
## Day policy: the session state machine

The relevant `useState` cells of the `Home` component, and the transitions
the UI can fire: day navigation, editing the draft text, and submitting.
`todayDateKey` is written once at session start and never again.  The
`useEffect` that re-synchronizes the draft text from the store after every
`entries`/`selectedDateKey` change is folded into each transition.
-/

/-- The session state: the `useState` cells of `Home` that the day policy
reads and writes.  The entry store is a map from date key to entry text. -/
structure SessionState where
  todayDateKey : String
  selectedDateKey : String
  entries : String → Option String
  draftEntry : String

/-- `Object.hasOwn(entries, d)`: presence, not truthiness. -/
def hasSubmittedFor (entries : String → Option String) (d : String) : Bool :=
  (entries d).isSome

/-- `isReady`: the session has captured today's date. -/
def isReady (s : SessionState) : Bool :=
  s.todayDateKey.length > 0

/-- `isTodaySelected`. -/
def isTodaySelected (s : SessionState) : Bool :=
  isReady s && (s.selectedDateKey == s.todayDateKey)

/-- `hasSubmittedForSelectedDay`: the source guards on the truthiness of
`selectedDateKey` (empty string before initialization). -/
def hasSubmittedForSelectedDay (s : SessionState) : Bool :=
  if s.selectedDateKey == "" then false else hasSubmittedFor s.entries s.selectedDateKey

/-- `isEditable`: today is selected and has no submitted entry. -/
def isEditable (s : SessionState) : Bool :=
  isTodaySelected s && !(hasSubmittedForSelectedDay s)

/-- `handleThoughtSubmit`: if editable, store the draft under the selected
day (`{...previous, [selectedDateKey]: draftEntry}`); otherwise do
nothing. -/
def handleThoughtSubmit (s : SessionState) : SessionState :=
  if isEditable s then
    { s with entries := fun k => if k = s.selectedDateKey then some s.draftEntry else s.entries k }
  else s

/-- The `useEffect` syncing the draft text to the stored entry of the
selected day (`entries[selectedDateKey] ?? ""`) after state changes. -/
def syncDraft (s : SessionState) : SessionState :=
  { s with draftEntry := (s.entries s.selectedDateKey).getD "" }

/-- The UI events that drive the day policy. -/
inductive Event where
  | prevDay : Event
  | nextDay : Event
  | goToday : Event
  | setDraft : String → Event
  | submit : Event

/-- One UI transition, with the draft-sync effect applied after it. -/
def step (s : SessionState) : Event → SessionState
  | .prevDay => syncDraft { s with selectedDateKey := shiftDateKey s.selectedDateKey (-1) }
  | .nextDay => syncDraft { s with selectedDateKey := shiftDateKey s.selectedDateKey 1 }
  | .goToday => syncDraft { s with selectedDateKey := s.todayDateKey }
  | .setDraft t => { s with draftEntry := t }
  | .submit => syncDraft (handleThoughtSubmit s)

/-!
## Theorems

General lemmas first (the Gregorian bijection, digit rendering, the PRNG
range), then one theorem per claim of the specification, each with its
witness or counterexample.
-/

theorem civil_decomp (doe c r2 q r3 y doy mp dd m : Nat)
    (hc : c = min (doe / 36524) 3) (hr2 : r2 = doe - 36524 * c)
    (hq : q = min (r2 / 1461) 24) (hr3 : r3 = r2 - 1461 * q)
    (hy : y = min (r3 / 365) 3) (hdoy : doy = r3 - 365 * y)
    (hmp : mp = (5 * doy + 2) / 153) (hdd : dd = doy - (153 * mp + 2) / 5 + 1)
    (hm : m = if mp < 10 then mp + 3 else mp - 9)
    (h : doe < 146097) :
    doeOfYoeMd (100 * c + 4 * q + y) m dd = doe ∧ 100 * c + 4 * q + y < 400 ∧
      1 ≤ m ∧ m ≤ 12 ∧ 1 ≤ dd ∧ dd ≤ 31 := by
  have h1 : c ≤ 3 ∧ 36524 * c ≤ doe ∧ r2 ≤ 36524 := by omega
  have h2 : q ≤ 24 ∧ 1461 * q ≤ r2 ∧ r3 ≤ 1460 := by omega
  have h3 : y ≤ 3 ∧ 365 * y ≤ r3 ∧ doy ≤ 365 := by omega
  have h4 : mp ≤ 11 ∧ (153 * mp + 2) / 5 ≤ doy ∧ doy - (153 * mp + 2) / 5 ≤ 30 := by omega
  have h5 : (100 * c + 4 * q + y) / 4 = 25 * c + q ∧ (100 * c + 4 * q + y) / 100 = c := by omega
  unfold doeOfYoeMd
  by_cases h10 : mp < 10 <;> simp only [hm, h10, if_true, if_false, reduceIte] <;> split <;> omega

theorem civil_inverse (doe : Nat) (h : doe < 146097) :
    doeOfYoeMd (civilOfDoe doe).1 (civilOfDoe doe).2.1 (civilOfDoe doe).2.2 = doe ∧
    (civilOfDoe doe).1 < 400 ∧
    1 ≤ (civilOfDoe doe).2.1 ∧ (civilOfDoe doe).2.1 ≤ 12 ∧
    1 ≤ (civilOfDoe doe).2.2 ∧ (civilOfDoe doe).2.2 ≤ 31 :=
  civil_decomp doe _ _ _ _ _ _ _ _ _ rfl rfl rfl rfl rfl rfl rfl rfl rfl h

theorem days_of_civil (n : Int) :
    daysFromCivil (civilFromDays n).1 (civilFromDays n).2.1 (civilFromDays n).2.2 = n := by
  have hdoe : ((n + 719468) - (n + 719468) / 146097 * 146097).toNat < 146097 := by omega
  obtain ⟨h1, h2, h3, h4, h5, h6⟩ := civil_inverse _ hdoe
  simp only [civilFromDays, daysFromCivil]
  generalize ht :
    civilOfDoe ((n + 719468) - (n + 719468) / 146097 * 146097).toNat = t at h1 h2 h3 h4 h5 h6 ⊢
  obtain ⟨yoe, m, d⟩ := t
  simp only at h1 h2 h3 h4 h5 h6 ⊢
  by_cases hm2 : m ≤ 2 <;> simp only [hm2, if_true, if_false, reduceIte]
  · rw [show ((n + 719468) / 146097 * 400 + (yoe : Int) + 1 - 1 -
        ((n + 719468) / 146097 * 400 + (yoe : Int) + 1 - 1) / 400 * 400).toNat = yoe by omega]
    rw [h1]
    omega
  · rw [show ((n + 719468) / 146097 * 400 + (yoe : Int) + 0 -
        ((n + 719468) / 146097 * 400 + (yoe : Int) + 0) / 400 * 400).toNat = yoe by omega]
    rw [h1]
    omega

theorem charOfNat_digit_toNat (k : Nat) (hk : k < 10) : (Char.ofNat (48 + k)).toNat = 48 + k := by
  interval_cases k <;> decide

theorem natDigitsAux_digits (fuel : Nat) :
    ∀ n, ∀ c ∈ natDigitsAux fuel n, 48 ≤ c.toNat ∧ c.toNat ≤ 57 := by
  induction fuel with
  | zero => intro n c hc; simp [natDigitsAux] at hc
  | succ fuel ih =>
    intro n c hc
    simp only [natDigitsAux] at hc
    by_cases h : n < 10
    · rw [if_pos h] at hc
      simp only [List.mem_singleton] at hc
      subst hc
      rw [charOfNat_digit_toNat n h]
      omega
    · rw [if_neg h] at hc
      rcases List.mem_append.mp hc with h1 | h1
      · exact ih _ c h1
      · simp only [List.mem_singleton] at h1
        subst h1
        rw [charOfNat_digit_toNat _ (Nat.mod_lt n (by omega))]
        omega

theorem natDigits_digits (n : Nat) : ∀ c ∈ natDigits n, 48 ≤ c.toNat ∧ c.toNat ≤ 57 :=
  natDigitsAux_digits (n + 1) n

theorem no_dash_of_digits (cs : List Char)
    (h : ∀ c ∈ cs, 48 ≤ c.toNat ∧ c.toNat ≤ 57) : '-' ∉ cs := by
  intro hm
  have h45 : ('-').toNat = 45 := by decide
  have := h _ hm
  omega

theorem natDigitsAux_foldl (fuel : Nat) :
    ∀ n a, n < fuel →
      (natDigitsAux fuel n).foldl (fun x c => 10 * x + (c.toNat - 48)) a =
        a * 10 ^ (natDigitsAux fuel n).length + n := by
  induction fuel with
  | zero => intro n a h; exact absurd h (Nat.not_lt_zero n)
  | succ fuel ih =>
    intro n a h
    simp only [natDigitsAux]
    by_cases h10 : n < 10
    · rw [if_pos h10]
      simp only [List.foldl_cons, List.foldl_nil, List.length_singleton]
      rw [charOfNat_digit_toNat n h10]
      ring_nf
      omega
    · rw [if_neg h10]
      rw [List.foldl_append]
      have hdiv : n / 10 < fuel := by omega
      rw [ih (n / 10) a hdiv]
      simp only [List.foldl_cons, List.foldl_nil, List.length_append, List.length_singleton]
      rw [charOfNat_digit_toNat _ (Nat.mod_lt n (by omega))]
      rw [pow_succ]
      have hp : 0 < 10 ^ (natDigitsAux fuel (n / 10)).length := Nat.pos_pow_of_pos _ (by omega)
      set P := 10 ^ (natDigitsAux fuel (n / 10)).length
      ring_nf
      omega

theorem digitsToNat_natDigits (n : Nat) : digitsToNat (natDigits n) = n := by
  unfold digitsToNat natDigits
  rw [natDigitsAux_foldl (n + 1) n 0 (Nat.lt_succ_self n)]
  simp

theorem digitsToNat_pad2 (cs : List Char) : digitsToNat (pad2 cs) = digitsToNat cs := by
  unfold pad2 digitsToNat
  by_cases h2 : cs.length ≥ 2
  · rw [if_pos h2]
  · rw [if_neg h2]
    by_cases h1 : cs.length = 1
    · rw [if_pos h1]
      simp only [List.foldl_cons]
      norm_num [show ('0').toNat = 48 from rfl]
    · rw [if_neg h1]
      have : cs = [] := List.length_eq_zero.mp (by omega)
      subst this
      decide

theorem pad2_digits (cs : List Char)
    (h : ∀ c ∈ cs, 48 ≤ c.toNat ∧ c.toNat ≤ 57) :
    ∀ c ∈ pad2 cs, 48 ≤ c.toNat ∧ c.toNat ≤ 57 := by
  unfold pad2
  by_cases h2 : cs.length ≥ 2
  · rw [if_pos h2]; exact h
  · rw [if_neg h2]
    by_cases h1 : cs.length = 1
    · rw [if_pos h1]
      intro c hc
      rcases List.mem_cons.mp hc with h0 | h0
      · subst h0; decide
      · exact h _ h0
    · rw [if_neg h1]
      intro c hc
      rcases List.mem_cons.mp hc with h0 | h0
      · subst h0; decide
      · simp only [List.mem_singleton] at h0; subst h0; decide

theorem splitOnDash_ne_nil (cs : List Char) : splitOnDash cs ≠ [] := by
  cases cs with
  | nil => simp [splitOnDash]
  | cons c rest =>
    simp only [splitOnDash]
    cases h : splitOnDash rest with
    | nil => simp
    | cons g gs => by_cases hc : c = '-' <;> simp [hc]

theorem splitOnDash_no_dash (cs : List Char) (h : '-' ∉ cs) : splitOnDash cs = [cs] := by
  induction cs with
  | nil => rfl
  | cons c rest ih =>
    simp only [splitOnDash]
    have hcr : '-' ∉ rest := fun hm => h (List.mem_cons_of_mem _ hm)
    have hc : ¬(c = '-') := by
      intro hcontr; exact h (by rw [hcontr]; exact List.mem_cons_self _ _)
    rw [ih hcr]
    simp [hc]

theorem splitOnDash_append (a b : List Char) (h : '-' ∉ a) :
    splitOnDash (a ++ '-' :: b) = a :: splitOnDash b := by
  induction a with
  | nil =>
    simp only [List.nil_append, splitOnDash]
    cases hb : splitOnDash b with
    | nil => exact absurd hb (splitOnDash_ne_nil b)
    | cons g gs => simp
  | cons c rest ih =>
    have hcr : '-' ∉ rest := fun hm => h (List.mem_cons_of_mem _ hm)
    have hc : ¬(c = '-') := by
      intro hcontr; exact h (by rw [hcontr]; exact List.mem_cons_self _ _)
    simp only [List.cons_append, splitOnDash, List.append_eq]
    rw [ih hcr]
    simp [hc]

theorem parseDateKey_formatDateKey (y : Int) (m d : Nat) (hy : 0 ≤ y) :
    parseDateKey (formatDateKey y m d) = (y, m, d) := by
  unfold parseDateKey formatDateKey
  have hda : '-' ∉ natDigits y.toNat := no_dash_of_digits _ (natDigits_digits _)
  have hdb : '-' ∉ pad2 (natDigits m) :=
    no_dash_of_digits _ (pad2_digits _ (natDigits_digits _))
  have hdc : '-' ∉ pad2 (natDigits d) :=
    no_dash_of_digits _ (pad2_digits _ (natDigits_digits _))
  show (match splitOnDash (natDigits y.toNat ++
      '-' :: (pad2 (natDigits m) ++ '-' :: pad2 (natDigits d))) with
    | [a, b, c] => ((digitsToNat a : Int), digitsToNat b, digitsToNat c)
    | _ => ((0 : Int), 0, 0)) = (y, m, d)
  rw [splitOnDash_append _ _ hda, splitOnDash_append _ _ hdb, splitOnDash_no_dash _ hdc]
  simp only [digitsToNat_pad2, digitsToNat_natDigits]
  rw [Int.toNat_of_nonneg hy]

theorem civilFromDays_year_nonneg (k : Int) (hk : -719468 ≤ k) : 0 ≤ (civilFromDays k).1 := by
  simp only [civilFromDays]
  split <;> omega

theorem daysFromCivil_lower (y : Int) (m d : Nat) (hy : 1000 ≤ y) :
    -427274 ≤ daysFromCivil y m d := by
  simp only [daysFromCivil]
  split <;> omega

theorem shiftDateKey_eval (s : String) (y : Int) (m d : Nat) (k : Int)
    (hp : parseDateKey s = (y, m, d)) :
    shiftDateKey s k = formatDateKey (civilFromDays (daysFromCivil y m d + k)).1
      (civilFromDays (daysFromCivil y m d + k)).2.1
      (civilFromDays (daysFromCivil y m d + k)).2.2 := by
  unfold shiftDateKey
  rw [hp]

/-- C4: for every DateKey (a canonical `YYYY-MM-DD` key of a calendar day,
i.e. the formatted date of some day number `n`, with a four-digit year),
shifting one day forward and then one day back returns the original key.
This covers month and year boundaries; the leap day 2024-02-29 is the
witness. -/
theorem shiftDateKey_roundtrip (n y : Int) (m d : Nat)
    (hc : civilFromDays n = (y, m, d)) (hy1 : 1000 ≤ y) (hy2 : y ≤ 9999) :
    shiftDateKey (shiftDateKey (formatDateKey y m d) 1) (-1) = formatDateKey y m d := by
  have hdays : daysFromCivil y m d = n := by
    have h0 := days_of_civil n
    rw [hc] at h0
    exact h0
  have hn : -427274 ≤ n := hdays ▸ daysFromCivil_lower y m d hy1
  have hpf1 : parseDateKey (formatDateKey y m d) = (y, m, d) :=
    parseDateKey_formatDateKey y m d (by omega)
  rcases hsplit : civilFromDays (n + 1) with ⟨y2, m2, d2⟩
  have hys : 0 ≤ y2 := by
    have h0 := civilFromDays_year_nonneg (n + 1) (by omega)
    rw [hsplit] at h0
    exact h0
  have hdays2 : daysFromCivil y2 m2 d2 = n + 1 := by
    have h0 := days_of_civil (n + 1)
    rw [hsplit] at h0
    exact h0
  have hpf2 : parseDateKey (formatDateKey y2 m2 d2) = (y2, m2, d2) :=
    parseDateKey_formatDateKey y2 m2 d2 hys
  have step1 : shiftDateKey (formatDateKey y m d) 1 = formatDateKey y2 m2 d2 := by
    rw [shiftDateKey_eval _ _ _ _ 1 hpf1, hdays, hsplit]
  rw [step1, shiftDateKey_eval _ _ _ _ (-1) hpf2, hdays2,
    show n + 1 + -1 = n from by ring, hc]

/-- Witness for C4 at the leap day 2024-02-29 (day number 19782). -/
theorem shiftDateKey_roundtrip_witness :
    civilFromDays 19782 = (2024, 2, 29) ∧
      formatDateKey 2024 2 29 = "2024-02-29" ∧
      shiftDateKey (shiftDateKey (formatDateKey 2024 2 29) 1) (-1) = formatDateKey 2024 2 29 :=
  ⟨by decide, by decide,
    shiftDateKey_roundtrip 19782 2024 2 29 (by decide) (by norm_num) (by norm_num)⟩

theorem foldl_fnv_eq_rec (l : List Nat) : ∀ h : Nat, l.foldl fnvStep h = fnvSpecRec h l := by
  induction l with
  | nil => intro h; rfl
  | cons c cs ih =>
    intro h
    simp only [List.foldl_cons, fnvSpecRec]
    exact ih (fnvStep h c)

theorem foldl_fnv_lt (l : List Nat) : ∀ h : Nat, h < UINT32 → l.foldl fnvStep h < UINT32 := by
  induction l with
  | nil => intro h hh; exact hh
  | cons c cs ih =>
    intro h hh
    exact ih (fnvStep h c) (Nat.mod_lt _ (by norm_num [UINT32]))

/-- C5: `hashSeed` is exactly the 32-bit FNV-1a-style hash the spec
describes over the UTF-16 code units (initial value 2166136261, per unit
XOR then multiply by 16777619 mod `2^32`), and its value always lies in
`[0, 2^32)`.  Determinism is definitional: it is a pure function of the
string. -/
theorem hashSeed_fnv_spec (s : String) :
    hashSeed s = fnvSpecRec 2166136261 (stringUtf16 s) ∧ hashSeed s < 4294967296 :=
  ⟨foldl_fnv_eq_rec (stringUtf16 s) 2166136261,
    foldl_fnv_lt (stringUtf16 s) 2166136261 (by norm_num [UINT32])⟩

theorem mulberryStep_out_lt (st : Nat) : (mulberryStep st).2 < UINT32 := by
  have h32 : UINT32 = 2 ^ 32 := by norm_num [UINT32]
  show (let s := (st + 1831565813) % UINT32
    let n1 := ((s ^^^ (s >>> 15)) * (s ||| 1)) % UINT32
    let t := ((n1 ^^^ (n1 >>> 7)) * (n1 ||| 61)) % UINT32
    let n2 := n1 ^^^ ((n1 + t) % UINT32)
    n2 ^^^ (n2 >>> 14)) < UINT32
  have hU : 0 < UINT32 := by norm_num [UINT32]
  set s := (st + 1831565813) % UINT32
  set n1 := ((s ^^^ (s >>> 15)) * (s ||| 1)) % UINT32 with hn1
  set t := ((n1 ^^^ (n1 >>> 7)) * (n1 ||| 61)) % UINT32 with ht
  have h1 : n1 < 2 ^ 32 := h32 ▸ Nat.mod_lt _ hU
  have h2 : (n1 + t) % UINT32 < 2 ^ 32 := h32 ▸ Nat.mod_lt _ hU
  have h3 : n1 ^^^ ((n1 + t) % UINT32) < 2 ^ 32 := Nat.xor_lt_two_pow h1 h2
  have h4 : (n1 ^^^ ((n1 + t) % UINT32)) >>> 14 < 2 ^ 32 :=
    Nat.lt_of_le_of_lt (by rw [Nat.shiftRight_eq_div_pow]; exact Nat.div_le_self _ _) h3
  exact h32 ▸ Nat.xor_lt_two_pow h3 h4

theorem streamValue_lt (seed k : Nat) : streamValue seed k < 4294967296 :=
  mulberryStep_out_lt (streamState seed k)

/-- C6: the generator returned by `mulberry32` advances its 32-bit state
by adding `0x6D2B79F5 = 1831565813`, wrapping mod `2^32`, on every call,
and every produced value (the mixed 32-bit output divided by `2^32`) lies
in `[0, 1)`. -/
theorem mulberry_stream_spec (seed k : Nat) :
    streamState seed (k + 1) = (streamState seed k + 1831565813) % 4294967296 ∧
      0 ≤ streamRat seed k ∧ streamRat seed k < 1 := by
  refine ⟨rfl, ?_, ?_⟩
  · unfold streamRat
    positivity
  · unfold streamRat
    rw [div_lt_one (by norm_num)]
    exact_mod_cast streamValue_lt seed k

/-- C8: `generateDailyArt` is a pure function of the date key: equal keys
give bit-identical results (same cells in the same order, same color).
Nothing else — no clock, no session state — enters the computation. -/
theorem generateDailyArt_deterministic (d1 d2 : String) (h : d1 = d2) :
    generateDailyArt d1 = generateDailyArt d2 := by
  rw [h]

/-- Witness for C8 at a concrete date key. -/
theorem generateDailyArt_deterministic_witness :
    ("2024-01-01" : String) = "2024-01-01" ∧
      generateDailyArt "2024-01-01" = generateDailyArt "2024-01-01" :=
  ⟨rfl, generateDailyArt_deterministic "2024-01-01" "2024-01-01" rfl⟩

/-- C9: the accent color index `Math.floor(random() * 9)` always lands in
`[0, 8]` because the drawn value lies in `[0, 1)`, so the palette lookup
never falls off the 9-entry palette: the color is always `some` member of
`DAILY_COLORS`, never `undefined`. -/
theorem generateDailyArt_color_safe (d : String) :
    ∃ c, (generateDailyArt d).color = some c ∧ c ∈ DAILY_COLORS := by
  show ∃ c, DAILY_COLORS.get? ((9 * (mulberryStep (hashSeed d)).2) / UINT32) = some c ∧
    c ∈ DAILY_COLORS
  have hv : (mulberryStep (hashSeed d)).2 < 4294967296 := mulberryStep_out_lt (hashSeed d)
  have hU : UINT32 = 4294967296 := rfl
  have hidx : (9 * (mulberryStep (hashSeed d)).2) / UINT32 < 9 := by
    rw [hU]
    omega
  set i := (9 * (mulberryStep (hashSeed d)).2) / UINT32 with hi
  interval_cases i <;> exact ⟨_, rfl, by decide⟩

theorem genCellsFrom_length (count : Nat) :
    ∀ (dk : String) (st idx : Nat), (genCellsFrom dk st idx count).length = count := by
  induction count with
  | zero => intro dk st idx; rfl
  | succ count ih =>
    intro dk st idx
    simp only [genCellsFrom, List.length_cons]
    rw [ih]

theorem genCellsFrom_id (count : Nat) :
    ∀ (dk : String) (st idx i : Nat), i < count →
      ((genCellsFrom dk st idx count).getD i { id := "", isPainted := false }).id =
        dk ++ "-" ++ toString (idx + i) := by
  induction count with
  | zero => intro dk st idx i hi; exact absurd hi (Nat.not_lt_zero i)
  | succ count ih =>
    intro dk st idx i hi
    cases i with
    | zero =>
      simp only [genCellsFrom, List.getD_cons_zero, Nat.add_zero]
    | succ i =>
      simp only [genCellsFrom, List.getD_cons_succ]
      rw [ih dk _ (idx + 1) i (by omega)]
      rw [show idx + 1 + i = idx + (i + 1) from by omega]

/-- C7: for every non-empty date key, `generateDailyArt` returns exactly
400 cells — a 20×20 logical grid — and the identifier of cell `i` is
`dateKey ++ "-" ++ i` for `i = 0, ..., 399`. -/
theorem generateDailyArt_shape (d : String) (_hd : d ≠ "") :
    (generateDailyArt d).cells.length = 400 ∧ ART_CELLS = 20 * 20 ∧
      ∀ i, i < 400 →
        ((generateDailyArt d).cells.getD i { id := "", isPainted := false }).id =
          d ++ "-" ++ toString i := by
  refine ⟨genCellsFrom_length 400 d (mulberryStep (hashSeed d)).1 0, rfl, ?_⟩
  intro i hi
  have h := genCellsFrom_id 400 d (mulberryStep (hashSeed d)).1 0 i hi
  rw [Nat.zero_add] at h
  exact h

/-- Witness for C7 at a concrete date key. -/
theorem generateDailyArt_shape_witness :
    ("2024-01-01" : String) ≠ "" ∧
      (generateDailyArt "2024-01-01").cells.length = 400 :=
  ⟨by decide, (generateDailyArt_shape "2024-01-01" (by decide)).1⟩

theorem q62_bridge (v : Nat) : ((62 : ℚ) / 100 < (v : ℚ) / 4294967296) ↔ 2662879723 < v := by
  rw [div_lt_div_iff₀ (by norm_num) (by norm_num)]
  rw [show ((62 : ℚ) * 4294967296) = ((266287972352 : Nat) : ℚ) by norm_num,
    show ((v : ℚ) * 100) = (((v * 100 : Nat) : ℚ)) by push_cast; ring]
  rw [Nat.cast_lt]
  omega

theorem genCellsFrom_painted (count : Nat) :
    ∀ (dk : String) (seed k idx i : Nat), i < count →
      ((genCellsFrom dk (streamState seed k) idx count).getD i
          { id := "", isPainted := false }).isPainted =
        decide ((62 : ℚ) / 100 < (streamValue seed (k + i) : ℚ) / 4294967296) := by
  induction count with
  | zero => intro dk seed k idx i hi; exact absurd hi (Nat.not_lt_zero i)
  | succ count ih =>
    intro dk seed k idx i hi
    cases i with
    | zero =>
      simp only [genCellsFrom, List.getD_cons_zero, Nat.add_zero]
      rfl
    | succ i =>
      simp only [genCellsFrom, List.getD_cons_succ]
      rw [show (mulberryStep (streamState seed k)).1 = streamState seed (k + 1) from rfl]
      rw [ih dk seed (k + 1) (idx + 1) i (by omega)]
      rw [show k + 1 + i = k + (i + 1) from by omega]

/-- C1 (amended): the painted flag of cell `i` is not produced by any
signal blending; it is simply whether generator draw `i + 1` (the draw
after the color draw) exceeds 0.62, i.e. whether its 32-bit value exceeds
2662879723. -/
theorem generateDailyArt_painted_rule (d : String) (i : Nat) (hi : i < 400) :
    cellPaintedAt d i = true ↔ 2662879723 < streamValue (hashSeed d) (i + 1) := by
  have h := genCellsFrom_painted 400 d (hashSeed d) 1 0 i hi
  rw [show cellPaintedAt d i =
      ((genCellsFrom d (streamState (hashSeed d) 1) 0 400).getD i
        { id := "", isPainted := false }).isPainted from rfl, h]
  rw [show 1 + i = i + 1 from by omega]
  rw [decide_eq_true_eq]
  exact q62_bridge (streamValue (hashSeed d) (i + 1))

/-- Witness for the amended C1 at a concrete cell. -/
theorem generateDailyArt_painted_rule_witness :
    (0 : Nat) < 400 ∧
      (cellPaintedAt "2024-01-01" 0 = true ↔
        2662879723 < streamValue (hashSeed "2024-01-01") 1) :=
  ⟨by decide, generateDailyArt_painted_rule "2024-01-01" 0 (by decide)⟩

/-- Counterexample to C1 as stated: for the date key 2024-01-04 the drawn
pattern mode is 3 (the pure cluster/fine blend, no wave or radial term),
and at cell 0 the code paints the cell although the spec's blended
intensity does not exceed the spec's jittered threshold.  So
`generateDailyArt` does not decide painted flags by the spec's blending
algorithm. -/
theorem generateDailyArt_not_spec_blend :
    cellPaintedAt "2024-01-04" 0 = true ∧ ¬ specPainted "2024-01-04" 0 := by
  constructor
  · have h := genCellsFrom_painted 400 "2024-01-04" (hashSeed "2024-01-04") 1 0 0 (by norm_num)
    rw [show cellPaintedAt "2024-01-04" 0 =
        ((genCellsFrom "2024-01-04" (streamState (hashSeed "2024-01-04") 1) 0 400).getD 0
          { id := "", isPainted := false }).isPainted from rfl, h]
    rw [decide_eq_true_eq, q62_bridge]
    decide
  · intro hp
    have hm : specMode "2024-01-04" = 3 := by decide
    have hcs : specClusterSize "2024-01-04" = 6 := by decide
    have hw1 : cellNoiseWord (hashSeed "2024-01-04") 0 0 1 = 208070586 := by decide
    have hw2 : cellNoiseWord (hashSeed "2024-01-04") 0 0 2 = 71744092 := by decide
    have hw3 : cellNoiseWord (hashSeed "2024-01-04") 0 0 3 = 1662590713 := by decide
    have hv2 : streamValue (hashSeed "2024-01-04") 2 = 2321562810 := by decide
    have e1 : specFine "2024-01-04" 0 = (208070586 : ℚ) / 4294967296 := by
      unfold specFine cellNoise cellX cellY
      norm_num [hw1]
    have e2 : specCluster "2024-01-04" 0 = (71744092 : ℚ) / 4294967296 := by
      unfold specCluster cellNoise cellX cellY
      norm_num [hcs, hw2]
    have e3 : specThreshold "2024-01-04" 0 =
        (16 / 100 + (2321562810 : ℚ) / 4294967296 * (68 / 100)) *
          (86 / 100 + (1662590713 : ℚ) / 4294967296 * (28 / 100)) := by
      unfold specThreshold specBaseDensity cellNoise streamRat cellX cellY
      norm_num [hw3, hv2]
    have hq : (7 : ℚ) / 10 * specCluster "2024-01-04" 0 +
        3 / 10 * specFine "2024-01-04" 0 ≤ specThreshold "2024-01-04" 0 := by
      rw [e1, e2, e3]
      norm_num
    unfold specPainted specBlend at hp
    rw [hm] at hp
    norm_num at hp
    have hcast : ¬ ((specThreshold "2024-01-04" 0 : ℝ) <
        7 / 10 * (specCluster "2024-01-04" 0 : ℝ) +
          3 / 10 * (specFine "2024-01-04" 0 : ℝ)) := by
      rw [show (7 : ℝ) / 10 * (specCluster "2024-01-04" 0 : ℝ) +
          3 / 10 * (specFine "2024-01-04" 0 : ℝ) =
          ((7 / 10 * specCluster "2024-01-04" 0 +
            3 / 10 * specFine "2024-01-04" 0 : ℚ) : ℝ) from by push_cast; ring]
      rw [Rat.cast_lt]
      exact not_lt.mpr hq
    exact hcast hp

/-- C2 counterexample: a persisted JSON array with a string element does
not load as the empty store — `typeof [] === "object"`, so the array
passes the object guard and its string elements survive keyed by index. -/
theorem loadEntries_array_counterexample :
    loadEntries (some (.arr [.str "hello"])) = [("0", "hello")] ∧
      loadEntries (some (.arr [.str "hello"])) ≠ ([] : List (String × String)) := by
  constructor
  · rfl
  · decide

/-- C2 (amended): `loadEntries` never throws (it is a total function of
the parse outcome), and returns the empty store on missing/unparseable
input and on any parsed value that is falsy or not of `typeof "object"`
(numbers, strings, booleans, `null`).  A parsed array, however, passes
the object guard: its string elements survive, keyed by their decimal
indices, so an array loads as the empty store only when it has no string
elements. -/
theorem loadEntries_corrupt (v : JsValue) (xs : List JsValue)
    (hv : jsTruthy v = false ∨ typeofIsObject v = false) :
    loadEntries none = [] ∧ loadEntries (some v) = [] ∧
      loadEntries (some (.arr xs)) =
        xs.enum.filterMap fun p =>
          match p.2 with
          | .str s => some (toString p.1, s)
          | _ => none := by
  refine ⟨rfl, ?_, ?_⟩
  · rcases hv with h | h <;> simp [loadEntries, h]
  · unfold loadEntries
    simp only [jsTruthy, typeofIsObject, Bool.not_true, Bool.or_self, if_false, jsEntries,
      List.filterMap_map, Bool.false_or, reduceIte]
    rfl

/-- Witness for the amended C2 at concrete corrupt inputs. -/
theorem loadEntries_corrupt_witness :
    typeofIsObject (.num 7) = false ∧
      (loadEntries none = [] ∧ loadEntries (some (.num 7)) = [] ∧
        loadEntries (some (.arr [.str "a", .num 0])) =
          ([.str "a", .num 0] : List JsValue).enum.filterMap fun p =>
            match p.2 with
            | .str s => some (toString p.1, s)
            | _ => none) :=
  ⟨rfl, loadEntries_corrupt (.num 7) [.str "a", .num 0] (Or.inr rfl)⟩

theorem isEditable_facts (s : SessionState) (h : isEditable s = true) :
    s.selectedDateKey = s.todayDateKey ∧ s.selectedDateKey ≠ "" ∧
      s.entries s.selectedDateKey = none := by
  unfold isEditable isTodaySelected isReady hasSubmittedForSelectedDay hasSubmittedFor at h
  rw [Bool.and_eq_true, Bool.and_eq_true, Bool.not_eq_true'] at h
  obtain ⟨⟨hrdy, hsel⟩, hns⟩ := h
  rw [beq_iff_eq] at hsel
  rw [decide_eq_true_eq] at hrdy
  have hne : s.selectedDateKey ≠ "" := by
    rw [hsel]
    intro hh
    rw [hh] at hrdy
    simp at hrdy
  refine ⟨hsel, hne, ?_⟩
  rw [if_neg (by simpa using hne)] at hns
  cases hent : s.entries s.selectedDateKey with
  | none => rfl
  | some t => rw [hent] at hns; simp at hns

theorem step_today_fixed (s : SessionState) (e : Event) :
    (step s e).todayDateKey = s.todayDateKey := by
  cases e with
  | prevDay => rfl
  | nextDay => rfl
  | goToday => rfl
  | setDraft t => rfl
  | submit =>
    show (syncDraft (handleThoughtSubmit s)).todayDateKey = s.todayDateKey
    unfold syncDraft handleThoughtSubmit
    split <;> rfl

theorem step_entries_stable (T : String) (s : SessionState) (e : Event)
    (h : s.entries s.todayDateKey = some T) :
    (step s e).entries s.todayDateKey = some T := by
  cases e with
  | prevDay => exact h
  | nextDay => exact h
  | goToday => exact h
  | setDraft t => exact h
  | submit =>
    show (syncDraft (handleThoughtSubmit s)).entries s.todayDateKey = some T
    unfold syncDraft handleThoughtSubmit
    by_cases hed : isEditable s = true
    · obtain ⟨hsel, hne, hnone⟩ := isEditable_facts s hed
      rw [hsel] at hnone
      rw [hnone] at h
      cases h
    · rw [if_neg hed]
      exact h

theorem isEditable_false_of_submitted (r : SessionState) (T : String)
    (h : r.entries r.todayDateKey = some T) : isEditable r = false := by
  cases hev : isEditable r with
  | false => rfl
  | true =>
    obtain ⟨hsel, hne2, hnone⟩ := isEditable_facts r hev
    rw [hsel, h] at hnone
    cases hnone

theorem submit_entries_today (s : SessionState) (hE : isEditable s = true) :
    (step s .submit).entries s.todayDateKey = some s.draftEntry := by
  obtain ⟨hsel, hne, hnone⟩ := isEditable_facts s hE
  show (syncDraft (handleThoughtSubmit s)).entries s.todayDateKey = some s.draftEntry
  unfold syncDraft handleThoughtSubmit
  rw [if_pos hE]
  show (if s.todayDateKey = s.selectedDateKey then some s.draftEntry
    else s.entries s.todayDateKey) = some s.draftEntry
  rw [if_pos hsel.symm]

theorem foldl_preserves_entry (T : String) (evs : List Event) :
    ∀ s : SessionState, s.entries s.todayDateKey = some T →
      (evs.foldl step s).entries (evs.foldl step s).todayDateKey = some T ∧
        (evs.foldl step s).todayDateKey = s.todayDateKey := by
  induction evs with
  | nil => intro s h; exact ⟨h, rfl⟩
  | cons e evs ih =>
    intro s h
    simp only [List.foldl_cons]
    have h1 : (step s e).todayDateKey = s.todayDateKey := step_today_fixed s e
    have h2 : (step s e).entries (step s e).todayDateKey = some T := by
      rw [h1]
      exact step_entries_stable T s e h
    obtain ⟨ha, hb⟩ := ih (step s e) h2
    exact ⟨ha, by rw [hb, h1]⟩

/-- C3: from an editable state, submitting the draft text `T` stores `T`
for today, makes `hasSubmitted(today)` true and `isEditable` false, and
after ANY further sequence of UI events — navigation, draft edits and
renewed submission attempts — the stored entry for today is still `T` and
the state is still not editable: the submitted day never becomes editable
again within the session. -/
theorem submit_locks_today (s : SessionState) (T : String) (evs : List Event)
    (hE : isEditable s = true) (hT : s.draftEntry = T) :
    hasSubmittedFor (step s .submit).entries s.todayDateKey = true ∧
      isEditable (step s .submit) = false ∧
      (evs.foldl step (step s .submit)).entries s.todayDateKey = some T ∧
      isEditable (evs.foldl step (step s .submit)) = false := by
  have hTd := submit_entries_today s hE
  rw [hT] at hTd
  have htoday1 : (step s .submit).todayDateKey = s.todayDateKey := step_today_fixed s .submit
  have hstart : (step s .submit).entries (step s .submit).todayDateKey = some T := by
    rw [htoday1]
    exact hTd
  obtain ⟨ha, hb⟩ := foldl_preserves_entry T evs (step s .submit) hstart
  refine ⟨?_, ?_, ?_, ?_⟩
  · unfold hasSubmittedFor
    rw [hTd]
    rfl
  · exact isEditable_false_of_submitted _ T hstart
  · rw [hb, htoday1] at ha
    exact ha
  · have := foldl_preserves_entry T evs (step s .submit) hstart
    exact isEditable_false_of_submitted _ T this.1

/-- Witness for C3: a fresh session on 2024-01-01, submit "hello", then
edit the draft, try to submit again, navigate away and back, and try once
more; the stored entry is still "hello". -/
theorem submit_locks_today_witness :
    isEditable ⟨"2024-01-01", "2024-01-01", fun _ => none, "hello"⟩ = true ∧
      (([Event.setDraft "world", Event.submit, Event.nextDay, Event.goToday,
          Event.submit]).foldl step
        (step ⟨"2024-01-01", "2024-01-01", fun _ => none, "hello"⟩ .submit)).entries
        "2024-01-01" = some "hello" :=
  ⟨by decide,
    (submit_locks_today ⟨"2024-01-01", "2024-01-01", fun _ => none, "hello"⟩ "hello"
      [Event.setDraft "world", Event.submit, Event.nextDay, Event.goToday, Event.submit]
      (by decide) rfl).2.2.1⟩

/-- C10: an accepted submission changes only the entry stored under the
selected date key: every other key reads the same value as before, and
neither `todayDateKey` nor `selectedDateKey` is changed by the handler. -/
theorem submit_frame (s : SessionState) (hE : isEditable s = true) :
    (handleThoughtSubmit s).todayDateKey = s.todayDateKey ∧
      (handleThoughtSubmit s).selectedDateKey = s.selectedDateKey ∧
      (handleThoughtSubmit s).entries s.selectedDateKey = some s.draftEntry ∧
      ∀ k, k ≠ s.selectedDateKey → (handleThoughtSubmit s).entries k = s.entries k := by
  unfold handleThoughtSubmit
  rw [if_pos hE]
  refine ⟨rfl, rfl, ?_, ?_⟩
  · show (if s.selectedDateKey = s.selectedDateKey then some s.draftEntry
      else s.entries s.selectedDateKey) = some s.draftEntry
    rw [if_pos rfl]
  · intro k hk
    show (if k = s.selectedDateKey then some s.draftEntry else s.entries k) = s.entries k
    rw [if_neg hk]

/-- Witness for C10: submitting on a fresh editable session leaves the
entry of a different day (2023-12-31) untouched. -/
theorem submit_frame_witness :
    isEditable ⟨"2024-01-01", "2024-01-01", fun _ => none, "hi"⟩ = true ∧
      (handleThoughtSubmit ⟨"2024-01-01", "2024-01-01", fun _ => none, "hi"⟩).entries
        "2023-12-31" = none :=
  ⟨by decide,
    (submit_frame ⟨"2024-01-01", "2024-01-01", fun _ => none, "hi"⟩ (by decide)).2.2.2
      "2023-12-31" (by decide)⟩
